import Mathlib

/-!
Shallow embedding of the estools maintenance-orchestration code
(src/estools/__init__.py, src/estools/utils.py, src/estools/upgrade.py)
and proofs of the spec's claims about it.

External effects (Elasticsearch API calls, remote script execution, sleeping)
are modelled by oracles: a function from the index of the call to the response
the environment gives at that call.  Time is idealized: condition evaluation is
instantaneous and only `time.sleep(retry_period)` advances the clock.
-/

namespace ESTools

/-! ### Exceptions

Python exception classes that appear in the modelled code.  `isinstance`
checks in `wait_for` compare classes, so each error value carries its class
separately from its payload. -/

/-- Parsed result of the `cirrusSearchElasticaWrite` job-queue line
(`ElasticsearchCluster.write_queue_status`). -/
structure WriteQueueStatus where
  queued : Nat
  claimed : Nat
  active : Nat
  abandoned : Nat
  delayed : Nat
deriving DecidableEq, Repr

/-- The exception classes relevant to the modelled code paths. -/
inductive ExcClass
  | keyError
  | configError
  | transportError
  | maxWriteQueueExceeded
  | requestError
deriving DecidableEq, Repr

/-- A raised Python exception value: its class plus any payload the code
inspects (`MaxWriteQueueExceeded.queue_status`). -/
inductive PyErr
  | keyError
  | configError (msg : String)
  | transportError
  | maxWriteQueueExceeded (queue_status : WriteQueueStatus)
  | requestError
deriving DecidableEq, Repr

/-- The class of an exception value, used by the `isinstance` test in
`wait_for`. -/
def PyErr.classOf : PyErr → ExcClass
  | .keyError => .keyError
  | .configError _ => .configError
  | .transportError => .transportError
  | .maxWriteQueueExceeded _ => .maxWriteQueueExceeded
  | .requestError => .requestError

/-! ### `wait_for` (src/estools/utils.py, lines 43-55)

The condition is modelled as an oracle `Nat → CondResult`: the outcome of its
k-th evaluation (truthiness of the returned value, or a raised exception).
`timeout` and `retry_period` are in (integer) seconds.  Elapsed time after k
sleeps is `k * retry` and the loop's timeout test `time.time() > start_time +
timeout` becomes `(k+1) * retry > timeout` right after the (k+1)-th sleep.
The loop diverges when `retry_period = 0` (the clock never advances), so the
embedding carries the hypothesis `0 < retry`. -/

/-- One evaluation of a `wait_for` condition: it returns a value of some
truthiness, or raises. -/
inductive CondResult
  | ret (b : Bool)
  | raise (e : PyErr)
deriving DecidableEq, Repr

/-- How a `wait_for` call ends: normal return, `TimeoutException`, or an
exception propagated from the condition.  `TimeoutException` is a constructor
of this type, not a `PyErr`: it is distinct by construction from every
exception the condition itself can raise. -/
inductive WaitOutcome
  | success
  | timedOut
  | raised (e : PyErr)
deriving DecidableEq, Repr

/-- The `while True` loop of `wait_for`, at attempt `k` (k sleeps have already
happened).  Returns the outcome together with the total time slept. -/
def wait_for_go (cond : Nat → CondResult) (ignored : List ExcClass)
    (timeout retry : Nat) (hr : 0 < retry) (k : Nat) : WaitOutcome × Nat :=
  match cond k with
  | .ret true => (.success, k * retry)
  | .ret false =>
    if (k + 1) * retry > timeout then (.timedOut, (k + 1) * retry)
    else wait_for_go cond ignored timeout retry hr (k + 1)
  | .raise e =>
    if e.classOf ∈ ignored then
      if (k + 1) * retry > timeout then (.timedOut, (k + 1) * retry)
      else wait_for_go cond ignored timeout retry hr (k + 1)
    else (.raised e, k * retry)
termination_by timeout + retry - k * retry
decreasing_by
  all_goals
    rename_i h
    simp only [not_lt] at h
    have hm : (k + 1) * retry = k * retry + retry := Nat.succ_mul k retry
    omega

/-- `wait_for(condition, timeout, retry_period, ignored_exceptions)`
(src/estools/utils.py).  Result: the outcome and the total seconds slept. -/
def wait_for (cond : Nat → CondResult) (ignored : List ExcClass)
    (timeout retry : Nat) (hr : 0 < retry) : WaitOutcome × Nat :=
  wait_for_go cond ignored timeout retry hr 0

/-! ### Cluster routing (src/estools/__init__.py, lines 151-163 and 206-210)

`curator.ClusterRouting(...)` only constructs a request object; the terminal
call on it is either `do_dry_run()` or `do_action()`, chosen by
`_do_cluster_routing` from `self.dry_run`. -/

/-- The request object built by `curator.ClusterRouting(elasticsearch,
routing_type=..., setting=..., value=..., wait_for_completion=...)`. -/
structure ClusterRouting where
  routing_type : String
  setting : String
  value : String
  wait_for_completion : Bool
deriving DecidableEq, Repr

/-- The terminal action taken on a constructed `ClusterRouting` request:
the dry-run call or the real mutating call. -/
inductive RoutingAction
  | dryRun (request : ClusterRouting)
  | action (request : ClusterRouting)
deriving DecidableEq, Repr

/-- Whether a terminal routing action is the mutating one (`do_action`). -/
def RoutingAction.isMutating : RoutingAction → Bool
  | .dryRun _ => false
  | .action _ => true

/-- The request a terminal routing action was applied to. -/
def RoutingAction.request : RoutingAction → ClusterRouting
  | .dryRun r => r
  | .action r => r

/-- `ElasticsearchCluster._do_cluster_routing` (lines 206-210). -/
def _do_cluster_routing (dry_run : Bool) (cluster_routing : ClusterRouting) :
    RoutingAction :=
  if dry_run then .dryRun cluster_routing else .action cluster_routing

/-- `ElasticsearchCluster._stop_replication` (lines 151-156): routing value
`primaries`. -/
def _stop_replication (dry_run : Bool) (wait : Bool) : RoutingAction :=
  _do_cluster_routing dry_run
    { routing_type := "allocation", setting := "enable", value := "primaries",
      wait_for_completion := wait }

/-- `ElasticsearchCluster._start_replication` (lines 158-163): routing value
`all`. -/
def _start_replication (dry_run : Bool) (wait : Bool) : RoutingAction :=
  _do_cluster_routing dry_run
    { routing_type := "allocation", setting := "enable", value := "all",
      wait_for_completion := wait }

/-! ### Guaranteed-release scopes (src/estools/__init__.py, lines 100-106 and
143-149; src/estools/upgrade.py)

`frozen_writes` and `stopped_replication` are `@contextmanager` pairs:
acquire, `try: yield` then `finally:` release.  A computation is modelled by
the trace of cluster-level events it emits together with its outcome
(normal value or raised exception); `tryFinally` is Python's `try/finally`:
the finaliser's trace always runs, and the body's exception survives unless
the finaliser itself raises (then the finaliser's exception replaces it). -/

/-- The cluster-level events a maintenance scope emits. -/
inductive Event
  | freezeWrites
  | thawWrites
  | stopReplication (wait : Bool)
  | startReplication (wait : Bool)
  | taskStep (label : String)
deriving DecidableEq, Repr

/-- A computation: the events it emits, in order, and its outcome. -/
abbrev Comp (α : Type) : Type := List Event × Except PyErr α

/-- Sequencing: run `x`; on success feed its value to `f`, on an exception
stop and propagate it. -/
def compBind {α β : Type} (x : Comp α) (f : α → Comp β) : Comp β :=
  match x with
  | (tr, .ok a) => (tr ++ (f a).1, (f a).2)
  | (tr, .error e) => (tr, .error e)

/-- Python `try: body finally: fin`: the finaliser always runs after the
body; if the body raised and the finaliser completes normally, the body's
exception propagates unchanged; if the finaliser raises, its exception
replaces the body's outcome. -/
def tryFinally {α : Type} (body : Comp α) (fin : Comp Unit) : Comp α :=
  match fin with
  | (trf, .ok _) => (body.1 ++ trf, body.2)
  | (trf, .error ef) => (body.1 ++ trf, .error ef)

/-- `ElasticsearchCluster._freeze_writes` (lines 108-115): runs the
freeze `mwscript` invocation. -/
def _freeze_writes : Comp Unit := ([.freezeWrites], .ok ())

/-- `ElasticsearchCluster._thaw_writes` (lines 117-125). -/
def _thaw_writes : Comp Unit := ([.thawWrites], .ok ())

/-- `ElasticsearchCluster.frozen_writes` (lines 100-106): freeze, run the
body, thaw in a `finally`. -/
def frozen_writes {α : Type} (body : Comp α) : Comp α :=
  compBind _freeze_writes (fun _ => tryFinally body _thaw_writes)

/-- `ElasticsearchCluster.stopped_replication` (lines 143-149): stop
replication, run the body, restart replication in a `finally`.  The stop and
start calls themselves are the routing mutations of lines 151-163. -/
def stopped_replication {α : Type} (wait : Bool) (body : Comp α) : Comp α :=
  compBind ([.stopReplication wait], .ok ())
    (fun _ => tryFinally body ([.startReplication wait], .ok ()))

/-- The nesting used by `reboot_nodes` (src/estools/upgrade.py, lines
82-106): the task body runs inside `stopped_replication` which runs inside
`frozen_writes`. -/
def pairedMaintenanceScopes {α : Type} (wait : Bool) (body : Comp α) :
    Comp α :=
  frozen_writes (stopped_replication wait body)

/-! ### Write-queue status parsing (src/estools/__init__.py, lines 127-141)

The regex
`^cirrusSearchElasticaWrite: (\d+) queued; (\d+) claimed \((\d+) active,
(\d+) abandoned\); (\d+) delayed$` with `re.M` matches a whole line of the
report text.  The embedding parses each line with a deterministic
literal/digit-run scanner and returns the first match; `re.search` with
`re.M` anchors likewise yields the first matching line. -/

/-- Consume an exact literal, returning the remaining characters. -/
def litMatch : List Char → List Char → Option (List Char)
  | [], cs => some cs
  | _ :: _, [] => none
  | l :: ls, c :: cs => if c = l then litMatch ls cs else none

/-- Numeric value of a digit run. -/
def digitsToNat (ds : List Char) : Nat :=
  ds.foldl (fun n c => 10 * n + (c.toNat - 48)) 0

/-- Consume a non-empty maximal digit run (`\d+` before a non-digit). -/
def parseNatTok (cs : List Char) : Option (Nat × List Char) :=
  let ds := cs.takeWhile Char.isDigit
  if ds.isEmpty then none
  else some (digitsToNat ds, cs.dropWhile Char.isDigit)

/-- Match one full line against the `cirrusSearchElasticaWrite` pattern. -/
def parseQueueLine (cs : List Char) : Option WriteQueueStatus := do
  let cs ← litMatch (String.data ("cirrusSearchElasticaWrite: ")) cs
  let (q, cs) ← parseNatTok cs
  let cs ← litMatch (String.data (" queued; ")) cs
  let (cl, cs) ← parseNatTok cs
  let cs ← litMatch (String.data (" claimed (")) cs
  let (ac, cs) ← parseNatTok cs
  let cs ← litMatch (String.data (" active, ")) cs
  let (ab, cs) ← parseNatTok cs
  let cs ← litMatch (String.data (" abandoned); ")) cs
  let (de, cs) ← parseNatTok cs
  let cs ← litMatch (String.data (" delayed")) cs
  if cs.isEmpty then
    some { queued := q, claimed := cl, active := ac, abandoned := ab,
           delayed := de }
  else none

/-- Split a character sequence at newlines, the line structure `re.M`'s
`^`/`$` anchors see. -/
def splitLines : List Char → List (List Char)
  | [] => [[]]
  | c :: rest =>
    match splitLines rest with
    | [] => [[]]
    | l :: ls => if c = '\n' then [] :: l :: ls else (c :: l) :: ls

/-- `ElasticsearchCluster.write_queue_status` applied to the `showJobs.php`
report text: the parse of the first matching line, or `none` — the empty
dict `{}` sentinel — when no line matches. -/
def write_queue_status (message : String) : Option WriteQueueStatus :=
  (splitLines message.data).findSome? parseQueueLine

/-! ### Batch selection (src/estools/__init__.py, lines 212-242)

A node of the live inventory: its name, its `attributes.row` failure-domain
attribute (`none` models the attribute being absent, which makes the Python
dict lookup raise `KeyError`), and `jvm.start_time_in_millis`.  The cutoff
`restart_start_time` is a timestamp in whole seconds;
`_has_been_restarted_after` compares `utcfromtimestamp(millis / 1000)`
against it. -/

structure NodeInfo where
  name : String
  row : Option String
  start_time_in_millis : Nat
deriving DecidableEq, Repr

/-- `ElasticsearchCluster._has_been_restarted_after` (lines 239-242). -/
def _has_been_restarted_after (node : NodeInfo) (start_time : Nat) : Bool :=
  decide (node.start_time_in_millis / 1000 > start_time)

/-- One entry of the `rows` dict: the `done` and `not_done` node lists. -/
structure Row where
  done : List NodeInfo
  not_done : List NodeInfo
deriving DecidableEq, Repr

/-- Append a node to the `done` or `not_done` list of a row. -/
def Row.addNode (r : Row) (nd : NodeInfo) (isDone : Bool) : Row :=
  if isDone then { r with done := r.done ++ [nd] }
  else { r with not_done := r.not_done ++ [nd] }

/-- `rows[row]` update including `_ensure_row_initialized` (lines 235-237):
a new key is appended at the end, preserving discovery order, as a Python
dict does. -/
def insertNode : List (String × Row) → String → NodeInfo → Bool →
    List (String × Row)
  | [], rname, nd, d => [(rname, Row.addNode ⟨[], []⟩ nd d)]
  | (k, rw) :: rest, rname, nd, d =>
    if k = rname then (k, rw.addNode nd d) :: rest
    else (k, rw) :: insertNode rest rname nd d

/-- The loop of `_to_rows` with the rows built so far; a node whose
`attributes` dict has no `row` key raises `KeyError` on the spot. -/
def toRowsAux (start_time : Nat) :
    List NodeInfo → List (String × Row) → Except PyErr (List (String × Row))
  | [], acc => .ok acc
  | nd :: rest, acc =>
    match nd.row with
    | none => .error .keyError
    | some r =>
      toRowsAux start_time rest
        (insertNode acc r nd (_has_been_restarted_after nd start_time))

/-- `ElasticsearchCluster._to_rows` (lines 223-233). -/
def _to_rows (nodes : List NodeInfo) (start_time : Nat) :
    Except PyErr (List (String × Row)) :=
  toRowsAux start_time nodes []

/-- Sort key of `next_nodes`: `len(row[1]['done'])`. -/
def doneCount (p : String × Row) : Nat := p.2.done.length

/-- Stable insertion of one row entry into an already-sorted list: the new
entry goes before the first entry with a strictly larger key, after every
entry with a smaller-or-equal key.  Together with `sortRows` this computes
the unique stable sort by `doneCount`, which is what Python's `sorted`
produces. -/
def sortInsert (x : String × Row) : List (String × Row) → List (String × Row)
  | [] => [x]
  | y :: ys =>
    if doneCount x ≤ doneCount y then x :: y :: ys else y :: sortInsert x ys

/-- Stable sort of the row entries ascending by done-count, as
`sorted(rows.items(), key=lambda row: len(row[1]['done']))`. -/
def sortRows : List (String × Row) → List (String × Row)
  | [] => []
  | x :: xs => sortInsert x (sortRows xs)

/-- The FQDN built for a selected node (line 219). -/
def fqdn (node_suffix : String) (nd : NodeInfo) : String :=
  nd.name ++ "." ++ node_suffix

/-- The `for row_name, row in s` loop of `next_nodes` (lines 217-221): the
first sorted row with a non-empty `not_done` list yields up to `n` of its
not-done nodes; if none does, the loop falls through to `return None`. -/
def firstBatch (n : Nat) (node_suffix : String) :
    List (String × Row) → Option (List String)
  | [] => none
  | (_, rw) :: rest =>
    if 0 < rw.not_done.length then
      some ((rw.not_done.take n).map (fqdn node_suffix))
    else firstBatch n node_suffix rest

/-- `ElasticsearchCluster.next_nodes` (lines 212-221): partition the live
inventory into rows, sort rows by done-count, return the first batch (as the
list of FQDNs handed to `ElasticNodes`), or `none`.  A `KeyError` from
`_to_rows` propagates. -/
def next_nodes (inv : List NodeInfo) (restart_start_time : Nat) (n : Nat)
    (node_suffix : String) : Except PyErr (Option (List String)) :=
  match _to_rows inv restart_start_time with
  | .error e => .error e
  | .ok rows => .ok (firstBatch n node_suffix (sortRows rows))

/-- Well-formedness of a built `rows` structure with respect to an
inventory and cutoff: every node filed under a row's `done` (resp.
`not_done`) list is an inventory node carrying that row attribute and
classified done (resp. not done) by `_has_been_restarted_after`. -/
def RowsOk (t : Nat) (inv : List NodeInfo) (rows : List (String × Row)) :
    Prop :=
  ∀ p ∈ rows, ∀ x : NodeInfo,
    (x ∈ p.2.done →
      x ∈ inv ∧ x.row = some p.1 ∧ _has_been_restarted_after x t = true) ∧
    (x ∈ p.2.not_done →
      x ∈ inv ∧ x.row = some p.1 ∧ _has_been_restarted_after x t = false)

/-- The comparison underlying the sort of `next_nodes`. -/
def rowLe (a b : String × Row) : Prop := doneCount a ≤ doneCount b

/-! ### Shard repair (src/estools/__init__.py, lines 244-288)

The environment's responses are oracles indexed by call number: `unassigned i`
is the i-th result of `unassigned_shards()` (call 0 sizes the loop, call
`i + 1` feeds outer iteration `i`); `assignedCheck i s` is the
`is_shard_assigned` re-check during iteration `i`; `nodes i` is the
already-shuffled node-name list fetched in iteration `i`; `allocOk i node`
tells whether the `cluster.reroute` call for that node succeeds (`false` =
`RequestError`). -/

structure Shard where
  index : String
  shard : Nat
deriving DecidableEq, Repr

structure RepairEnv where
  unassigned : Nat → List Shard
  assignedCheck : Nat → Shard → Bool
  nodes : Nat → List String
  allocOk : Nat → String → Bool

/-- The candidate loop of `force_allocation_of_shard` (lines 266-282): issue
a reroute command per candidate until one succeeds; returns the nodes a
command was actually issued for, and whether one succeeded. -/
def allocAttempts (env : RepairEnv) (i : Nat) : List String →
    List String × Bool
  | [] => ([], false)
  | node :: rest =>
    if env.allocOk i node then ([node], true)
    else
      let (tried, ok) := allocAttempts env i rest
      (node :: tried, ok)

/-- What one `force_allocation_of_shard` call did. -/
inductive ShardAction
  | skippedAssigned
  | attempted (tried : List String) (success : Bool)
deriving DecidableEq, Repr

/-- The nodes an allocation (`cluster.reroute`) command was issued for. -/
def ShardAction.allocCommands : ShardAction → List String
  | .skippedAssigned => []
  | .attempted tried _ => tried

/-- `ElasticsearchCluster.force_allocation_of_shard` (lines 259-283) as run
during outer iteration `i`: re-check assignment first; only when the shard
is still unassigned are reroute commands issued. -/
def force_allocation_of_shard (env : RepairEnv) (i : Nat) (s : Shard) :
    ShardAction :=
  if env.assignedCheck i s then .skippedAssigned
  else
    let (tried, ok) := allocAttempts env i (env.nodes i)
    .attempted tried ok

/-- Record of one executed outer iteration of
`force_allocation_of_all_replicas`. -/
structure IterRecord where
  fetched : List Shard
  target : Shard
  action : ShardAction
deriving DecidableEq, Repr

/-- Why the outer loop stopped: a fresh fetch came back empty (success), or
the `i < max` cap was exhausted. -/
inductive RepairStop
  | emptyFetch
  | capReached
deriving DecidableEq, Repr

structure RepairResult where
  iters : List IterRecord
  stop : RepairStop
deriving DecidableEq, Repr

/-- The `while i < max` loop (lines 247-253) with `remaining = max - i`
fuel; iteration `i` re-fetches the unassigned list (call `i + 1`) and
processes its head. -/
def repairGo (env : RepairEnv) : Nat → Nat → RepairResult
  | 0, _ => ⟨[], .capReached⟩
  | remaining + 1, i =>
    match env.unassigned (i + 1) with
    | [] => ⟨[], .emptyFetch⟩
    | s :: rest =>
      let r := repairGo env remaining (i + 1)
      ⟨⟨s :: rest, s, force_allocation_of_shard env i s⟩ :: r.iters, r.stop⟩

/-- `ElasticsearchCluster.force_allocation_of_all_replicas` (lines 244-253):
`max` is the size of the unassigned list at entry (call 0). -/
def force_allocation_of_all_replicas (env : RepairEnv) : RepairResult :=
  repairGo env (env.unassigned 0).length 0

/-! ### `wait_for_green` (src/estools/__init__.py, lines 165-175)

Per-poll oracles: the parsed `write_queue_status()` result and the
`cluster.health` call's behaviour (a returned value — a dict, hence truthy —
or a raised `TransportError`).  `max_delayed_jobs` is `Option Nat`: `none`
models the Python default `None`, and both `none` and `some 0` are falsy in
the `if max_delayed_jobs:` guard. -/

structure GreenEnv where
  queue_status : Nat → Option WriteQueueStatus
  health : Nat → CondResult

/-- Python truthiness of the `max_delayed_jobs` argument. -/
def truthyNat : Option Nat → Bool
  | none => false
  | some v => v != 0

/-- The numeric value compared against `status['delayed']`. -/
def maxVal : Option Nat → Nat
  | none => 0
  | some v => v

/-- The `green()` closure (lines 168-173) at poll `k`: with a truthy
threshold, sample the write queue and raise `MaxWriteQueueExceeded(status)`
when a non-empty status has `delayed` above the threshold; otherwise fall
through to the health call. -/
def green (max_delayed_jobs : Option Nat) (env : GreenEnv) (k : Nat) :
    CondResult :=
  if truthyNat max_delayed_jobs then
    match env.queue_status k with
    | some status =>
      if status.delayed > maxVal max_delayed_jobs then
        .raise (.maxWriteQueueExceeded status)
      else env.health k
    | none => env.health k
  else env.health k

/-- The `ignored_exceptions=[TransportError]` list of line 174. -/
def greenIgnored : List ExcClass := [.transportError]

/-- `ElasticsearchCluster.wait_for_green` (lines 165-175): `wait_for` over
the `green()` closure, ignoring only `TransportError`. -/
def wait_for_green (max_delayed_jobs : Option Nat) (env : GreenEnv)
    (timeout retry : Nat) (hr : 0 < retry) : WaitOutcome × Nat :=
  wait_for (green max_delayed_jobs env) greenIgnored timeout retry hr

/-! ## Helper lemmas -/

/-- `findSome?` over a list on which the function never fires. -/
theorem findSome_none_of_all_none {α β : Type} (f : α → Option β) :
    ∀ l : List α, (∀ x ∈ l, f x = none) → l.findSome? f = none := by
  intro l
  induction l with
  | nil => intro _; rfl
  | cons a as ih =>
    intro h
    have ha := h a (by simp)
    rw [List.findSome?_cons, ha]
    exact ih (fun x hx => h x (by simp [hx]))

/-- If every evaluation of the condition is unsuccessful (returns false or
raises only ignored exceptions), the `wait_for` loop ends in timeout, from
any attempt index.  Fuel `n` bounds the remaining loop measure. -/
theorem wait_for_go_all_unready (cond : Nat → CondResult)
    (ign : List ExcClass) (timeout retry : Nat) (hr : 0 < retry)
    (hc : ∀ k, cond k = CondResult.ret false ∨
          ∃ e, cond k = CondResult.raise e ∧ e.classOf ∈ ign) :
    ∀ n k, timeout + retry - k * retry ≤ n →
      (wait_for_go cond ign timeout retry hr k).1 = WaitOutcome.timedOut := by
  intro n
  induction n with
  | zero =>
    intro k hk
    have hgt : (k + 1) * retry > timeout := by
      have hm : (k + 1) * retry = k * retry + retry := Nat.succ_mul k retry
      omega
    rw [wait_for_go]
    rcases hc k with hf | ⟨e, he, hei⟩
    · simp [hf, hgt]
    · simp [he, hei, hgt]
  | succ n ih =>
    intro k hk
    rw [wait_for_go]
    have hm : (k + 1) * retry = k * retry + retry := Nat.succ_mul k retry
    rcases hc k with hf | ⟨e, he, hei⟩
    · simp only [hf]
      by_cases hgt : (k + 1) * retry > timeout
      · simp [hgt]
      · simp only [if_neg hgt]
        exact ih (k + 1) (by omega)
    · simp only [he, if_pos hei]
      by_cases hgt : (k + 1) * retry > timeout
      · simp [hgt]
      · simp only [if_neg hgt]
        exact ih (k + 1) (by omega)

/-- When the `wait_for` loop, entered with at most `timeout` already slept,
ends in timeout, the total slept time is a positive whole number of retry
periods, strictly above the timeout and above it by at most one retry
period. -/
theorem wait_for_go_timeout_slept (cond : Nat → CondResult)
    (ign : List ExcClass) (timeout retry : Nat) (hr : 0 < retry) :
    ∀ n k, timeout + retry - k * retry ≤ n → k * retry ≤ timeout →
      (wait_for_go cond ign timeout retry hr k).1 = WaitOutcome.timedOut →
      ∃ m, 0 < m ∧
        (wait_for_go cond ign timeout retry hr k).2 = m * retry ∧
        timeout < m * retry ∧ m * retry ≤ timeout + retry := by
  intro n
  induction n with
  | zero =>
    intro k hk hkt
    omega
  | succ n ih =>
    intro k hk hkt hout
    have hm : (k + 1) * retry = k * retry + retry := Nat.succ_mul k retry
    rw [wait_for_go] at hout ⊢
    cases hcond : cond k with
    | ret b =>
      cases b with
      | true => simp [hcond] at hout
      | false =>
        by_cases hgt : (k + 1) * retry > timeout
        · refine ⟨k + 1, by omega, ?_, hgt, by omega⟩
          simp [hcond, hgt]
        · simp only [hcond, if_neg hgt] at hout ⊢
          exact ih (k + 1) (by omega) (by omega) hout
    | raise e =>
      by_cases hig : e.classOf ∈ ign
      · by_cases hgt : (k + 1) * retry > timeout
        · refine ⟨k + 1, by omega, ?_, hgt, by omega⟩
          simp [hcond, hig, hgt]
        · simp only [hcond, if_pos hig, if_neg hgt] at hout ⊢
          exact ih (k + 1) (by omega) (by omega) hout
      · simp [hcond, hig] at hout

/-- A missing `row` attribute anywhere in the remaining nodes makes the
`_to_rows` loop raise `KeyError`, whatever has been accumulated so far. -/
theorem toRowsAux_error (t : Nat) :
    ∀ (nodes : List NodeInfo) (acc : List (String × Row)),
      (∃ nd ∈ nodes, nd.row = none) →
      toRowsAux t nodes acc = Except.error PyErr.keyError := by
  intro nodes
  induction nodes with
  | nil =>
    intro acc h
    simp at h
  | cons nd rest ih =>
    intro acc h
    obtain ⟨x, hx, hrow⟩ := h
    cases hnd : nd.row with
    | none => simp [toRowsAux, hnd]
    | some r =>
      simp only [toRowsAux, hnd]
      apply ih
      rcases List.mem_cons.mp hx with heq | hmem
      · rw [heq, hnd] at hrow
        exact Option.noConfusion hrow
      · exact ⟨x, hmem, hrow⟩

/-- If the `wait_for` loop ends by propagating exception `e`, some
evaluation of the condition raised `e` and its class is not ignorable. -/
theorem wait_for_go_raised_source (cond : Nat → CondResult)
    (ign : List ExcClass) (timeout retry : Nat) (hr : 0 < retry) :
    ∀ n k e, timeout + retry - k * retry ≤ n →
      (wait_for_go cond ign timeout retry hr k).1 = WaitOutcome.raised e →
      ∃ j, cond j = CondResult.raise e ∧ e.classOf ∉ ign := by
  intro n
  induction n with
  | zero =>
    intro k e hk hout
    have hgt : (k + 1) * retry > timeout := by
      have hm : (k + 1) * retry = k * retry + retry := Nat.succ_mul k retry
      omega
    rw [wait_for_go] at hout
    cases hcond : cond k with
    | ret b =>
      cases b with
      | true => simp [hcond] at hout
      | false => simp [hcond, hgt] at hout
    | raise e' =>
      by_cases hig : e'.classOf ∈ ign
      · simp [hcond, hig, hgt] at hout
      · simp only [hcond, if_neg hig] at hout
        have he : e' = e := by simpa using hout
        subst he
        exact ⟨k, hcond, hig⟩
  | succ n ih =>
    intro k e hk hout
    have hm : (k + 1) * retry = k * retry + retry := Nat.succ_mul k retry
    rw [wait_for_go] at hout
    cases hcond : cond k with
    | ret b =>
      cases b with
      | true => simp [hcond] at hout
      | false =>
        by_cases hgt : (k + 1) * retry > timeout
        · simp [hcond, hgt] at hout
        · simp only [hcond, if_neg hgt] at hout
          exact ih (k + 1) e (by omega) hout
    | raise e' =>
      by_cases hig : e'.classOf ∈ ign
      · by_cases hgt : (k + 1) * retry > timeout
        · simp [hcond, hig, hgt] at hout
        · simp only [hcond, if_pos hig, if_neg hgt] at hout
          exact ih (k + 1) e (by omega) hout
      · simp only [hcond, if_neg hig] at hout
        have he : e' = e := by simpa using hout
        subst he
        exact ⟨k, hcond, hig⟩

/-- If the condition at every index up to `k` is unsuccessful-but-ignorable,
and at `k` — still within the timeout — raises a non-ignored exception, the
whole `wait_for` call propagates that exception, having slept exactly
`k` retry periods. -/
theorem wait_for_raise_at (cond : Nat → CondResult) (ign : List ExcClass)
    (timeout retry : Nat) (hr : 0 < retry) (k : Nat) (e : PyErr)
    (hpre : ∀ j, j < k → cond j = CondResult.ret false ∨
        ∃ e', cond j = CondResult.raise e' ∧ e'.classOf ∈ ign)
    (hk : k * retry ≤ timeout)
    (he : cond k = CondResult.raise e) (hni : e.classOf ∉ ign) :
    wait_for cond ign timeout retry hr =
      (WaitOutcome.raised e, k * retry) := by
  have aux : ∀ d i, i + d = k →
      wait_for_go cond ign timeout retry hr i =
        (WaitOutcome.raised e, k * retry) := by
    intro d
    induction d with
    | zero =>
      intro i hi
      have hik : i = k := by omega
      subst hik
      rw [wait_for_go]
      simp [he, hni]
    | succ d ih =>
      intro i hi
      have hik : i < k := by omega
      have hle : (i + 1) * retry ≤ timeout :=
        le_trans (Nat.mul_le_mul_right retry (by omega)) hk
      rw [wait_for_go]
      rcases hpre i hik with hf | ⟨e', he', hei⟩
      · simp only [hf, if_neg (by omega : ¬ (i + 1) * retry > timeout)]
        exact ih (i + 1) (by omega)
      · simp only [he', if_pos hei,
          if_neg (by omega : ¬ (i + 1) * retry > timeout)]
        exact ih (i + 1) (by omega)
  exact aux k 0 (by omega)

/-- `insertNode` preserves `RowsOk` when the inserted node is an inventory
node with the stated row attribute and the stated classification. -/
theorem insertNode_rowsOk (t : Nat) (inv : List NodeInfo) (r : String)
    (nd : NodeInfo) (d : Bool) (hnd : nd ∈ inv) (hrow : nd.row = some r)
    (hd : d = _has_been_restarted_after nd t) :
    ∀ acc, RowsOk t inv acc → RowsOk t inv (insertNode acc r nd d) := by
  intro acc
  induction acc with
  | nil =>
    intro _ p hp x
    simp only [insertNode, List.mem_singleton] at hp
    subst hp
    cases d with
    | true =>
      refine ⟨?_, ?_⟩ <;> intro hx <;>
        simp [Row.addNode] at hx
      rw [hx]
      exact ⟨hnd, hrow, hd.symm⟩
    | false =>
      refine ⟨?_, ?_⟩ <;> intro hx <;>
        simp [Row.addNode] at hx
      rw [hx]
      exact ⟨hnd, hrow, hd.symm⟩
  | cons a rest ih =>
    intro hok
    obtain ⟨k, rw⟩ := a
    have hhead := hok (k, rw) (List.mem_cons_self _ _)
    have hrest : RowsOk t inv rest :=
      fun p hp => hok p (List.mem_cons_of_mem _ hp)
    by_cases hk : k = r
    · subst hk
      intro p hp x
      simp only [insertNode, if_pos rfl] at hp
      rcases List.mem_cons.mp hp with hp | hp
      · subst hp
        cases d with
        | true =>
          constructor
          · intro hx
            simp only [Row.addNode, if_pos rfl] at hx
            rcases List.mem_append.mp hx with hx | hx
            · exact (hhead x).1 hx
            · simp only [List.mem_singleton] at hx
              subst hx
              exact ⟨hnd, hrow, hd.symm⟩
          · intro hx
            simp only [Row.addNode, if_pos rfl] at hx
            exact (hhead x).2 hx
        | false =>
          constructor
          · intro hx
            simp only [Row.addNode] at hx
            exact (hhead x).1 hx
          · intro hx
            simp only [Row.addNode] at hx
            rcases List.mem_append.mp hx with hx | hx
            · exact (hhead x).2 hx
            · simp only [List.mem_singleton] at hx
              subst hx
              exact ⟨hnd, hrow, hd.symm⟩
      · exact hrest p hp x
    · intro p hp x
      simp only [insertNode, if_neg hk] at hp
      rcases List.mem_cons.mp hp with hp | hp
      · subst hp
        exact hok (k, rw) (List.mem_cons_self _ _) x
      · exact ih hrest p hp x

/-- After `insertNode`, the inserted node is present in its row's `done` or
`not_done` list according to its classification. -/
theorem insertNode_self (r : String) (nd : NodeInfo) (d : Bool) :
    ∀ acc, ∃ rw, (r, rw) ∈ insertNode acc r nd d ∧
      nd ∈ (if d then rw.done else rw.not_done) := by
  intro acc
  induction acc with
  | nil =>
    refine ⟨Row.addNode ⟨[], []⟩ nd d, by simp [insertNode], ?_⟩
    cases d <;> simp [Row.addNode]
  | cons a rest ih =>
    obtain ⟨k, rw⟩ := a
    by_cases hk : k = r
    · subst hk
      refine ⟨rw.addNode nd d, by simp [insertNode], ?_⟩
      cases d <;> simp [Row.addNode]
    · obtain ⟨rw', hmem, hin⟩ := ih
      exact ⟨rw', by simp [insertNode, hk, hmem], hin⟩

/-- `insertNode` never removes a node from a row: membership in a row's
lists survives the insertion (possibly in the updated row entry). -/
theorem insertNode_preserve (r' : String) (nd : NodeInfo) (d : Bool)
    (rname : String) (w : Row) (x : NodeInfo) :
    ∀ acc, (rname, w) ∈ acc →
      (x ∈ w.done →
        ∃ w', (rname, w') ∈ insertNode acc r' nd d ∧ x ∈ w'.done) ∧
      (x ∈ w.not_done →
        ∃ w', (rname, w') ∈ insertNode acc r' nd d ∧ x ∈ w'.not_done) := by
  intro acc
  induction acc with
  | nil =>
    intro h
    simp at h
  | cons a rest ih =>
    intro hmem
    obtain ⟨k, w0⟩ := a
    rcases List.mem_cons.mp hmem with hp | hp
    · rw [Prod.mk.injEq] at hp
      obtain ⟨hk1, hk2⟩ := hp
      subst hk1
      subst hk2
      by_cases hk : rname = r'
      · subst hk
        constructor
        · intro hx
          refine ⟨w.addNode nd d, by simp [insertNode], ?_⟩
          cases d <;> simp [Row.addNode, hx]
        · intro hx
          refine ⟨w.addNode nd d, by simp [insertNode], ?_⟩
          cases d <;> simp [Row.addNode, hx]
      · constructor <;> intro hx <;>
          exact ⟨w, by simp [insertNode, hk], hx⟩
    · by_cases hk : k = r'
      · subst hk
        constructor <;> intro hx <;>
          exact ⟨w, by simp [insertNode, hp], hx⟩
      · obtain ⟨ih1, ih2⟩ := ih hp
        constructor
        · intro hx
          obtain ⟨w', hm, hi⟩ := ih1 hx
          exact ⟨w', by simp [insertNode, hk, hm], hi⟩
        · intro hx
          obtain ⟨w', hm, hi⟩ := ih2 hx
          exact ⟨w', by simp [insertNode, hk, hm], hi⟩

/-- The `_to_rows` loop preserves `RowsOk`: starting from a well-formed
accumulator and feeding it inventory nodes produces a well-formed result. -/
theorem toRowsAux_sound (t : Nat) (inv : List NodeInfo) :
    ∀ (nodes : List NodeInfo) (acc rows : List (String × Row)),
      (∀ nd ∈ nodes, nd ∈ inv) → RowsOk t inv acc →
      toRowsAux t nodes acc = Except.ok rows → RowsOk t inv rows := by
  intro nodes
  induction nodes with
  | nil =>
    intro acc rows _ hok heq
    simp only [toRowsAux] at heq
    injection heq with h
    rwa [h] at hok
  | cons nd rest ih =>
    intro acc rows hinv hok heq
    cases hrow : nd.row with
    | none => simp [toRowsAux, hrow] at heq
    | some r =>
      simp only [toRowsAux, hrow] at heq
      exact ih _ rows (fun x hx => hinv x (List.mem_cons_of_mem _ hx))
        (insertNode_rowsOk t inv r nd _ (hinv nd (List.mem_cons_self _ _))
          hrow rfl acc hok) heq

/-- The `_to_rows` loop loses nothing: whatever is filed in the accumulator
stays filed, and every processed node ends up filed under its row on the
side given by its classification. -/
theorem toRowsAux_complete (t : Nat) :
    ∀ (nodes : List NodeInfo) (acc rows : List (String × Row)),
      toRowsAux t nodes acc = Except.ok rows →
      (∀ rname w x, (rname, w) ∈ acc →
        (x ∈ w.done → ∃ w', (rname, w') ∈ rows ∧ x ∈ w'.done) ∧
        (x ∈ w.not_done → ∃ w', (rname, w') ∈ rows ∧ x ∈ w'.not_done)) ∧
      (∀ x ∈ nodes, ∀ r, x.row = some r →
        ∃ w, (r, w) ∈ rows ∧
          x ∈ (if _has_been_restarted_after x t then w.done
               else w.not_done)) := by
  intro nodes
  induction nodes with
  | nil =>
    intro acc rows heq
    simp only [toRowsAux] at heq
    injection heq with h
    subst h
    constructor
    · intro rname w x hmem
      exact ⟨fun hx => ⟨w, hmem, hx⟩, fun hx => ⟨w, hmem, hx⟩⟩
    · intro x hx
      simp at hx
  | cons nd rest ih =>
    intro acc rows heq
    cases hrow : nd.row with
    | none => simp [toRowsAux, hrow] at heq
    | some r =>
      simp only [toRowsAux, hrow] at heq
      obtain ⟨P1, P2⟩ := ih _ rows heq
      constructor
      · intro rname w x hmem
        obtain ⟨pres1, pres2⟩ :=
          insertNode_preserve r nd (_has_been_restarted_after nd t)
            rname w x acc hmem
        constructor
        · intro hx
          obtain ⟨w1, hm1, hx1⟩ := pres1 hx
          exact (P1 rname w1 x hm1).1 hx1
        · intro hx
          obtain ⟨w1, hm1, hx1⟩ := pres2 hx
          exact (P1 rname w1 x hm1).2 hx1
      · intro x hx r0 hr0
        rcases List.mem_cons.mp hx with hx | hx
        · subst hx
          rw [hrow] at hr0
          injection hr0 with hr1
          rw [← hr1]
          obtain ⟨w1, hm1, hin1⟩ :=
            insertNode_self r x (_has_been_restarted_after x t) acc
          cases hd : _has_been_restarted_after x t with
          | true =>
            rw [hd] at hin1
            simp only [if_pos rfl] at hin1 ⊢
            obtain ⟨w', hm', hx'⟩ := (P1 r w1 x hm1).1 hin1
            exact ⟨w', hm', hx'⟩
          | false =>
            rw [hd] at hin1
            simp only [Bool.false_eq_true, if_neg] at hin1 ⊢
            obtain ⟨w', hm', hx'⟩ := (P1 r w1 x hm1).2 hin1
            exact ⟨w', hm', hx'⟩
        · exact P2 x hx r0 hr0

/-- When every node has a `row` attribute, `_to_rows` succeeds. -/
theorem toRowsAux_ok (t : Nat) :
    ∀ (nodes : List NodeInfo) (acc : List (String × Row)),
      (∀ nd ∈ nodes, nd.row ≠ none) →
      ∃ rows, toRowsAux t nodes acc = Except.ok rows := by
  intro nodes
  induction nodes with
  | nil =>
    intro acc _
    exact ⟨acc, rfl⟩
  | cons nd rest ih =>
    intro acc h
    cases hrow : nd.row with
    | none => exact absurd hrow (h nd (List.mem_cons_self _ _))
    | some r =>
      obtain ⟨rows, hrows⟩ :=
        ih (insertNode acc r nd (_has_been_restarted_after nd t))
          (fun x hx => h x (List.mem_cons_of_mem _ hx))
      exact ⟨rows, by simp [toRowsAux, hrow, hrows]⟩

/-- Membership is invariant under `sortInsert`. -/
theorem mem_sortInsert (x y : String × Row) :
    ∀ l, y ∈ sortInsert x l ↔ y = x ∨ y ∈ l := by
  intro l
  induction l with
  | nil => simp [sortInsert]
  | cons a as ih =>
    by_cases h : doneCount x ≤ doneCount a
    · simp [sortInsert, h]
    · simp only [sortInsert, if_neg h, List.mem_cons, ih]
      tauto

/-- Membership is invariant under `sortRows`. -/
theorem mem_sortRows (y : String × Row) :
    ∀ l, y ∈ sortRows l ↔ y ∈ l := by
  intro l
  induction l with
  | nil => simp [sortRows]
  | cons a as ih => simp [sortRows, mem_sortInsert, ih]

/-- `sortInsert` preserves sortedness by done-count. -/
theorem sortInsert_pairwise (x : String × Row) :
    ∀ l, l.Pairwise rowLe → (sortInsert x l).Pairwise rowLe := by
  intro l
  induction l with
  | nil =>
    intro _
    simp [sortInsert]
  | cons a as ih =>
    intro hp
    obtain ⟨hhead, htail⟩ := List.pairwise_cons.mp hp
    by_cases h : doneCount x ≤ doneCount a
    · rw [sortInsert, if_pos h]
      refine List.pairwise_cons.mpr ⟨?_, hp⟩
      intro b hb
      rcases List.mem_cons.mp hb with hb | hb
      · rw [hb]
        exact h
      · exact le_trans h (hhead b hb)
    · rw [sortInsert, if_neg h]
      refine List.pairwise_cons.mpr ⟨?_, ih htail⟩
      intro b hb
      rcases (mem_sortInsert x b as).mp hb with hb | hb
      · rw [hb]
        exact Nat.le_of_lt (Nat.lt_of_not_le h)
      · exact hhead b hb

/-- The row list sorted by `next_nodes` is sorted ascending by done-count. -/
theorem sortRows_pairwise : ∀ l, (sortRows l).Pairwise rowLe := by
  intro l
  induction l with
  | nil => simp [sortRows]
  | cons a as ih => exact sortInsert_pairwise a (sortRows as) ih

/-- `firstBatch` returns `none` exactly when every row has an empty
`not_done` list. -/
theorem firstBatch_none_iff (n : Nat) (sfx : String) :
    ∀ l, firstBatch n sfx l = none ↔ ∀ p ∈ l, p.2.not_done = [] := by
  intro l
  induction l with
  | nil => simp [firstBatch]
  | cons a as ih =>
    obtain ⟨k, w⟩ := a
    by_cases h : 0 < w.not_done.length
    · rw [firstBatch, if_pos h]
      constructor
      · intro hc
        exact Option.noConfusion hc
      · intro hall
        have := hall (k, w) (List.mem_cons_self _ _)
        simp only at this
        rw [this] at h
        simp at h
    · rw [firstBatch, if_neg h]
      have hw : w.not_done = [] := by
        simpa using Nat.le_of_not_lt h
      rw [ih]
      constructor
      · intro hall p hp
        rcases List.mem_cons.mp hp with hp | hp
        · rw [hp]
          exact hw
        · exact hall p hp
      · intro hall p hp
        exact hall p (List.mem_cons_of_mem _ hp)

/-- On a sorted row list, a batch returned by `firstBatch` is the first `n`
not-done nodes of a row that has a non-empty `not_done` list and a done
count minimal among all such rows. -/
theorem firstBatch_some_spec (n : Nat) (sfx : String) :
    ∀ l, l.Pairwise rowLe → ∀ b, firstBatch n sfx l = some b →
      ∃ p, p ∈ l ∧ p.2.not_done ≠ [] ∧
        b = (p.2.not_done.take n).map (fqdn sfx) ∧
        ∀ q ∈ l, q.2.not_done ≠ [] → doneCount p ≤ doneCount q := by
  intro l
  induction l with
  | nil =>
    intro _ b hb
    simp [firstBatch] at hb
  | cons a as ih =>
    intro hp b hb
    obtain ⟨hhead, htail⟩ := List.pairwise_cons.mp hp
    obtain ⟨k, w⟩ := a
    by_cases h : 0 < w.not_done.length
    · rw [firstBatch, if_pos h] at hb
      injection hb with hb
      refine ⟨(k, w), List.mem_cons_self _ _, ?_, hb.symm, ?_⟩
      · intro hc
        rw [hc] at h
        simp at h
      · intro q hq _
        rcases List.mem_cons.mp hq with hq | hq
        · rw [hq]
        · exact hhead q hq
    · rw [firstBatch, if_neg h] at hb
      have hw : w.not_done = [] := by
        simpa using Nat.le_of_not_lt h
      obtain ⟨p, hpmem, hpne, hpb, hpmin⟩ := ih htail b hb
      refine ⟨p, List.mem_cons_of_mem _ hpmem, hpne, hpb, ?_⟩
      intro q hq hqne
      rcases List.mem_cons.mp hq with hq | hq
      · rw [hq] at hqne
        exact absurd hw hqne
      · exact hpmin q hq hqne

/-- Behaviour of the repair loop from any starting iteration: it runs at
most `remaining` iterations, stops before exhausting them only on an empty
fresh fetch, and each executed iteration `j` works on the head of the fresh
fetch of call `i + j + 1`, acting through `force_allocation_of_shard`. -/
theorem repairGo_spec (env : RepairEnv) :
    ∀ (remaining i : Nat),
      (repairGo env remaining i).iters.length ≤ remaining ∧
      ((repairGo env remaining i).iters.length < remaining →
        (repairGo env remaining i).stop = RepairStop.emptyFetch) ∧
      ((repairGo env remaining i).stop = RepairStop.emptyFetch →
        env.unassigned (i + (repairGo env remaining i).iters.length + 1) =
          []) ∧
      (∀ j rec, (repairGo env remaining i).iters.get? j = some rec →
        rec.fetched = env.unassigned (i + j + 1) ∧
        env.unassigned (i + j + 1) ≠ [] ∧
        rec.fetched.head? = some rec.target ∧
        rec.action = force_allocation_of_shard env (i + j) rec.target) := by
  intro remaining
  induction remaining with
  | zero =>
    intro i
    refine ⟨Nat.le_refl 0, ?_, ?_, ?_⟩
    · intro h
      exact absurd h (by simp [repairGo])
    · intro h
      exact absurd h (by simp [repairGo])
    · intro j rec h
      simp [repairGo] at h
  | succ remaining ih =>
    intro i
    cases hu : env.unassigned (i + 1) with
    | nil =>
      refine ⟨?_, ?_, ?_, ?_⟩
      · simp [repairGo, hu]
      · intro _
        simp [repairGo, hu]
      · intro _
        simp [repairGo, hu]
      · intro j rec h
        simp [repairGo, hu] at h
    | cons s rest =>
      obtain ⟨ihlen, ihstop, ihempty, ihiter⟩ := ih (i + 1)
      have hres : repairGo env (remaining + 1) i =
          ⟨⟨s :: rest, s, force_allocation_of_shard env i s⟩ ::
            (repairGo env remaining (i + 1)).iters,
           (repairGo env remaining (i + 1)).stop⟩ := by
        simp [repairGo, hu]
      refine ⟨?_, ?_, ?_, ?_⟩
      · rw [hres]
        simpa using Nat.succ_le_succ ihlen
      · intro h
        rw [hres] at h ⊢
        simp only [List.length_cons] at h
        exact ihstop (by omega)
      · intro h
        rw [hres] at h ⊢
        simp only [List.length_cons]
        have := ihempty h
        have harith : i + 1 + (repairGo env remaining (i + 1)).iters.length =
            i + ((repairGo env remaining (i + 1)).iters.length + 1) := by
          omega
        rw [harith] at this
        exact this
      · intro j rec h
        rw [hres] at h
        cases j with
        | zero =>
          simp only [List.get?] at h
          have hrec : rec = ⟨s :: rest, s,
              force_allocation_of_shard env i s⟩ := by
            injection h with h'
            exact h'.symm
          subst hrec
          refine ⟨by simpa using hu.symm, by simp [hu], rfl, by simp⟩
        | succ j =>
          simp only [List.get?] at h
          have harith : i + 1 + j = i + (j + 1) := by omega
          have := ihiter j rec h
          rw [harith] at this
          exact this

/-! ## Claims -/

/-- C5: with `dry_run = true`, both replication-routing mutations
(`_stop_replication`, value `primaries`, and `_start_replication`, value
`all`) take the dry-run terminal action (`do_dry_run`) on exactly the request
that the real run would mutate (`do_action`), never the mutating action, and
return normally. -/
theorem dry_run_replication_routing_never_mutates :
    ∀ wait : Bool,
      _stop_replication true wait =
        RoutingAction.dryRun (_stop_replication false wait).request ∧
      _start_replication true wait =
        RoutingAction.dryRun (_start_replication false wait).request ∧
      (_stop_replication true wait).isMutating = false ∧
      (_start_replication true wait).isMutating = false := by
  intro wait
  exact ⟨rfl, rfl, rfl, rfl⟩

/-- C2: in the paired maintenance scopes (`frozen_writes` around
`stopped_replication`), a task body that raises still has both release steps
run — the trace is exactly freeze, stop-replication, the body's events, then
start-replication and thaw — and the body's exception reaches the caller
unchanged. -/
theorem paired_release_on_task_error {α : Type} (body : Comp α) (e : PyErr)
    (wait : Bool) (hb : body.2 = Except.error e) :
    (pairedMaintenanceScopes wait body).2 = Except.error e ∧
    (pairedMaintenanceScopes wait body).1 =
      Event.freezeWrites :: Event.stopReplication wait :: body.1 ++
        [Event.startReplication wait, Event.thawWrites] ∧
    Event.startReplication wait ∈ (pairedMaintenanceScopes wait body).1 ∧
    Event.thawWrites ∈ (pairedMaintenanceScopes wait body).1 := by
  obtain ⟨tr, out⟩ := body
  simp only at hb
  subst hb
  refine ⟨rfl, ?_, ?_, ?_⟩
  · simp [pairedMaintenanceScopes, frozen_writes, stopped_replication,
      compBind, tryFinally, _freeze_writes, _thaw_writes]
  · simp [pairedMaintenanceScopes, frozen_writes, stopped_replication,
      compBind, tryFinally, _freeze_writes, _thaw_writes]
  · simp [pairedMaintenanceScopes, frozen_writes, stopped_replication,
      compBind, tryFinally, _freeze_writes, _thaw_writes]

/-- Witness for C2 at a concrete failing body. -/
theorem paired_release_on_task_error_witness :
    (pairedMaintenanceScopes true
        ((⟨[Event.taskStep ("reboot")], Except.error PyErr.keyError⟩ :
          Comp Unit))).2 = Except.error PyErr.keyError ∧
    (pairedMaintenanceScopes true
        ((⟨[Event.taskStep ("reboot")], Except.error PyErr.keyError⟩ :
          Comp Unit))).1 =
      Event.freezeWrites :: Event.stopReplication true ::
        [Event.taskStep ("reboot")] ++
        [Event.startReplication true, Event.thawWrites] ∧
    Event.startReplication true ∈
      (pairedMaintenanceScopes true
        ((⟨[Event.taskStep ("reboot")], Except.error PyErr.keyError⟩ :
          Comp Unit))).1 ∧
    Event.thawWrites ∈
      (pairedMaintenanceScopes true
        ((⟨[Event.taskStep ("reboot")], Except.error PyErr.keyError⟩ :
          Comp Unit))).1 :=
  paired_release_on_task_error
    (⟨[Event.taskStep ("reboot")], Except.error PyErr.keyError⟩ : Comp Unit)
    PyErr.keyError true rfl

/-- C8: the write-queue parser maps the documented sample line to
`{queued 3, claimed 2, active 1, abandoned 1, delayed 42}` (also when the
line sits between non-matching lines), and any text none of whose lines
matches the pattern yields the empty sentinel, not an error. -/
theorem write_queue_status_parses_sample :
    write_queue_status
        ("cirrusSearchElasticaWrite: 3 queued; 2 claimed (1 active, 1 abandoned); 42 delayed") =
      some { queued := 3, claimed := 2, active := 1, abandoned := 1,
             delayed := 42 } ∧
    write_queue_status
        ("showJobs\ncirrusSearchElasticaWrite: 3 queued; 2 claimed (1 active, 1 abandoned); 42 delayed\nother: 1 queued") =
      some { queued := 3, claimed := 2, active := 1, abandoned := 1,
             delayed := 42 } ∧
    ∀ message : String,
      (∀ line ∈ splitLines message.data, parseQueueLine line = none) →
      write_queue_status message = none := by
  refine ⟨by decide, by decide, ?_⟩
  intro message h
  exact findSome_none_of_all_none _ _ h

/-- Witness for C8 on a concrete no-match text. -/
theorem write_queue_status_parses_sample_witness :
    write_queue_status ("no backlog reported\nhtmlCacheUpdate: 7 queued") =
      none :=
  write_queue_status_parses_sample.2.2
    ("no backlog reported\nhtmlCacheUpdate: 7 queued") (by decide)

/-- C3: `wait_for` returns at once, with no sleep, when the condition's
first evaluation is true; a non-ignored exception on the first evaluation
propagates at once with no retry and no sleep; a condition that only ever
returns false or raises ignored exceptions ends in `TimeoutException`, an
outcome distinct by construction from any exception the condition raised. -/
theorem wait_for_fail_fast_laws :
    (∀ cond ign timeout retry (hr : 0 < retry),
        cond 0 = CondResult.ret true →
        wait_for cond ign timeout retry hr = (WaitOutcome.success, 0)) ∧
    (∀ cond ign timeout retry (hr : 0 < retry) e,
        cond 0 = CondResult.raise e → e.classOf ∉ ign →
        wait_for cond ign timeout retry hr = (WaitOutcome.raised e, 0)) ∧
    (∀ cond ign timeout retry (hr : 0 < retry),
        (∀ k, cond k = CondResult.ret false ∨
              ∃ e, cond k = CondResult.raise e ∧ e.classOf ∈ ign) →
        (wait_for cond ign timeout retry hr).1 = WaitOutcome.timedOut ∧
        ∀ e, WaitOutcome.timedOut ≠ WaitOutcome.raised e) := by
  refine ⟨?_, ?_, ?_⟩
  · intro cond ign timeout retry hr h
    rw [wait_for, wait_for_go]
    simp [h]
  · intro cond ign timeout retry hr e he hni
    rw [wait_for, wait_for_go]
    simp [he, hni]
  · intro cond ign timeout retry hr hc
    exact ⟨wait_for_go_all_unready cond ign timeout retry hr hc
        (timeout + retry) 0 (by omega),
      fun e h => WaitOutcome.noConfusion h⟩

/-- Witness for C3 at concrete conditions, timeout 30 and retry period 10. -/
theorem wait_for_fail_fast_laws_witness :
    wait_for (fun _ => CondResult.ret true) [] 30 10 (by decide) =
      (WaitOutcome.success, 0) ∧
    wait_for (fun _ => CondResult.raise PyErr.keyError) [] 30 10 (by decide) =
      (WaitOutcome.raised PyErr.keyError, 0) ∧
    ((wait_for (fun _ => CondResult.raise PyErr.transportError)
        [ExcClass.transportError] 30 10 (by decide)).1 =
      WaitOutcome.timedOut ∧
      ∀ e, WaitOutcome.timedOut ≠ WaitOutcome.raised e) :=
  ⟨wait_for_fail_fast_laws.1 (fun _ => CondResult.ret true) [] 30 10
      (by decide) rfl,
   wait_for_fail_fast_laws.2.1 (fun _ => CondResult.raise PyErr.keyError) []
      30 10 (by decide) PyErr.keyError rfl (by decide),
   wait_for_fail_fast_laws.2.2 (fun _ => CondResult.raise PyErr.transportError)
      [ExcClass.transportError] 30 10 (by decide)
      (fun _ => Or.inr ⟨PyErr.transportError, rfl, by decide⟩)⟩

/-- C6 counterexample: on an inventory whose node lacks the `row` attribute,
`next_nodes` raises the untyped `KeyError` of the dict lookup in `_to_rows`,
which is not the typed `ConfigError` of the error taxonomy (that class is
raised only for unknown cluster/site in `Datacenter.elasticsearch_cluster`). -/
theorem missing_row_not_configerror_counterexample :
    next_nodes [(⟨"elastic1001", none, 0⟩ : NodeInfo)] 0 1 ("eqiad.wmnet") =
      Except.error PyErr.keyError ∧
    ∀ msg, PyErr.keyError ≠ PyErr.configError msg :=
  ⟨rfl, fun _ h => PyErr.noConfusion h⟩

/-- C6 (amended): for every inventory containing a node that lacks the
failure-domain (`row`) attribute, batch selection raises a fatal error
before any batch is formed or returned — but it is the untyped `KeyError`
from the attribute lookup, not the typed `ConfigError`. -/
theorem missing_row_raises_keyerror (inv : List NodeInfo) (t n : Nat)
    (node_suffix : String) (h : ∃ nd ∈ inv, nd.row = none) :
    next_nodes inv t n node_suffix = Except.error PyErr.keyError := by
  have he := toRowsAux_error t inv [] h
  simp [next_nodes, _to_rows, he]

/-- Witness for the amended C6 on a two-node inventory. -/
theorem missing_row_raises_keyerror_witness :
    next_nodes
        [(⟨"elastic1002", some ("A2"), 1000000⟩ : NodeInfo),
         (⟨"elastic1003", none, 0⟩ : NodeInfo)]
        5 2 ("codfw.wmnet") = Except.error PyErr.keyError :=
  missing_row_raises_keyerror _ 5 2 _
    ⟨(⟨"elastic1003", none, 0⟩ : NodeInfo), by simp, rfl⟩

/-- C7: whenever a `wait_for_green` poll with a truthy `max_delayed_jobs`
samples a non-empty queue status whose `delayed` count strictly exceeds the
threshold, the `green()` closure raises `MaxWriteQueueExceeded` carrying
that status; its class is not in the ignorable list (only `TransportError`
is), so the wait — having retried only unready polls so far and not yet
timed out — propagates it immediately instead of retrying or timing out. -/
theorem wait_for_green_queue_exceeded_propagates :
    (∀ m env k s, truthyNat m = true → env.queue_status k = some s →
        s.delayed > maxVal m →
        green m env k = CondResult.raise (PyErr.maxWriteQueueExceeded s)) ∧
    (∀ s, (PyErr.maxWriteQueueExceeded s).classOf ∉ greenIgnored) ∧
    (∀ m env timeout retry (hr : 0 < retry) k s,
        truthyNat m = true → env.queue_status k = some s →
        s.delayed > maxVal m →
        (∀ j, j < k → green m env j = CondResult.ret false ∨
            ∃ e', green m env j = CondResult.raise e' ∧
              e'.classOf ∈ greenIgnored) →
        k * retry ≤ timeout →
        wait_for_green m env timeout retry hr =
          (WaitOutcome.raised (PyErr.maxWriteQueueExceeded s), k * retry)) := by
  refine ⟨?_, ?_, ?_⟩
  · intro m env k s ht hq hd
    simp [green, ht, hq, hd]
  · intro s
    simp [PyErr.classOf, greenIgnored]
  · intro m env timeout retry hr k s ht hq hd hpre hk
    exact wait_for_raise_at _ _ _ _ hr k _ hpre hk
      (by simp [green, ht, hq, hd]) (by simp [PyErr.classOf, greenIgnored])

/-- Witness for C7: threshold 5, first poll reports 7 delayed jobs. -/
theorem wait_for_green_queue_exceeded_propagates_witness :
    wait_for_green (some 5)
        ({ queue_status := fun _ =>
            some { queued := 0, claimed := 0, active := 0, abandoned := 0,
                   delayed := 7 },
           health := fun _ => CondResult.ret true } : GreenEnv)
        30 10 (by decide) =
      (WaitOutcome.raised (PyErr.maxWriteQueueExceeded
        { queued := 0, claimed := 0, active := 0, abandoned := 0,
          delayed := 7 }), 0) :=
  wait_for_green_queue_exceeded_propagates.2.2 (some 5)
    ({ queue_status := fun _ =>
        some { queued := 0, claimed := 0, active := 0, abandoned := 0,
               delayed := 7 },
       health := fun _ => CondResult.ret true } : GreenEnv)
    30 10 (by decide) 0
    { queued := 0, claimed := 0, active := 0, abandoned := 0, delayed := 7 }
    rfl rfl (by decide) (fun j hj => absurd hj (Nat.not_lt_zero j)) (by decide)

/-- C10: the `green()` threshold check is skipped whenever
`max_delayed_jobs` is falsy (`None` or `0`) or `write_queue_status` returns
the empty sentinel — the poll reduces to the bare health call — and
`MaxWriteQueueExceeded` can only ever arise from a truthy threshold together
with a parsed status whose `delayed` strictly exceeds it; consequently
`wait_for_green` never ends by raising it under a falsy threshold or an
always-empty queue status. -/
theorem wait_for_green_no_queue_exceeded_when_skipped :
    (∀ m env k, truthyNat m = false → green m env k = env.health k) ∧
    (∀ m env k, env.queue_status k = none → green m env k = env.health k) ∧
    (∀ m env k s,
        (∀ j e, env.health j ≠
          CondResult.raise (PyErr.maxWriteQueueExceeded e)) →
        green m env k = CondResult.raise (PyErr.maxWriteQueueExceeded s) →
        truthyNat m = true ∧ env.queue_status k = some s ∧
          s.delayed > maxVal m) ∧
    (∀ m env timeout retry (hr : 0 < retry) s,
        (truthyNat m = false ∨ ∀ k, env.queue_status k = none) →
        (∀ j e, env.health j ≠
          CondResult.raise (PyErr.maxWriteQueueExceeded e)) →
        (wait_for_green m env timeout retry hr).1 ≠
          WaitOutcome.raised (PyErr.maxWriteQueueExceeded s)) := by
  have hchar : ∀ m env k s,
      (∀ j e, env.health j ≠
        CondResult.raise (PyErr.maxWriteQueueExceeded e)) →
      green m env k = CondResult.raise (PyErr.maxWriteQueueExceeded s) →
      truthyNat m = true ∧ env.queue_status k = some s ∧
        s.delayed > maxVal m := by
    intro m env k s hh hg
    by_cases ht : truthyNat m
    · cases hq : env.queue_status k with
      | none =>
        rw [green, if_pos ht, hq] at hg
        exact absurd hg (hh k s)
      | some status =>
        simp only [green, if_pos ht, hq] at hg
        by_cases hd : status.delayed > maxVal m
        · rw [if_pos hd] at hg
          have hs : status = s := by simpa using hg
          subst hs
          exact ⟨ht, rfl, hd⟩
        · rw [if_neg hd] at hg
          exact absurd hg (hh k s)
    · rw [green, if_neg ht] at hg
      exact absurd hg (hh k s)
  refine ⟨?_, ?_, hchar, ?_⟩
  · intro m env k ht
    simp [green, ht]
  · intro m env k hq
    by_cases ht : truthyNat m
    · simp [green, ht, hq]
    · simp [green, ht]
  · intro m env timeout retry hr s hskip hh hraised
    obtain ⟨j, hj, -⟩ := wait_for_go_raised_source
      (green m env) greenIgnored timeout retry hr (timeout + retry) 0 _
      (by omega) hraised
    have := hchar m env j s hh hj
    rcases hskip with ht | hq
    · rw [this.1] at ht
      exact Bool.noConfusion ht
    · rw [hq j] at this
      exact Option.noConfusion this.2.1

/-- Witness for C10: a falsy threshold (`None`) with a healthy cluster and a
non-empty queue never raises `MaxWriteQueueExceeded`. -/
theorem wait_for_green_no_queue_exceeded_when_skipped_witness :
    (wait_for_green none
        ({ queue_status := fun _ =>
            some { queued := 0, claimed := 0, active := 0, abandoned := 0,
                   delayed := 999999 },
           health := fun _ => CondResult.ret true } : GreenEnv)
        30 10 (by decide)).1 ≠
      WaitOutcome.raised (PyErr.maxWriteQueueExceeded
        { queued := 0, claimed := 0, active := 0, abandoned := 0,
          delayed := 999999 }) :=
  wait_for_green_no_queue_exceeded_when_skipped.2.2.2 none
    ({ queue_status := fun _ =>
        some { queued := 0, claimed := 0, active := 0, abandoned := 0,
               delayed := 999999 },
       health := fun _ => CondResult.ret true } : GreenEnv)
    30 10 (by decide)
    { queued := 0, claimed := 0, active := 0, abandoned := 0,
      delayed := 999999 }
    (Or.inl rfl) (fun _ _ h => CondResult.noConfusion h)

/-- C9: `wait_for` evaluates the condition before any timeout test — a
condition true on the first call succeeds with zero sleep for every timeout,
zero included — and when it does time out, the time slept is a positive
number of full retry periods, strictly exceeding the nominal timeout and
exceeding it by at most one retry period, because each unsuccessful
evaluation sleeps a full retry period before the timeout test. -/
theorem wait_for_timeout_checked_after_sleep :
    (∀ cond ign timeout retry (hr : 0 < retry),
        cond 0 = CondResult.ret true →
        wait_for cond ign timeout retry hr = (WaitOutcome.success, 0)) ∧
    (∀ cond ign timeout retry (hr : 0 < retry),
        (wait_for cond ign timeout retry hr).1 = WaitOutcome.timedOut →
        ∃ m, 0 < m ∧ (wait_for cond ign timeout retry hr).2 = m * retry ∧
          timeout < m * retry ∧ m * retry ≤ timeout + retry) := by
  constructor
  · intro cond ign timeout retry hr h
    rw [wait_for, wait_for_go]
    simp [h]
  · intro cond ign timeout retry hr h
    exact wait_for_go_timeout_slept cond ign timeout retry hr
      (timeout + retry) 0 (by omega) (by omega) h

/-- Witness for C9: success with zero sleep at timeout 0, and the timeout
overshoot bound at timeout 30, retry period 10. -/
theorem wait_for_timeout_checked_after_sleep_witness :
    wait_for (fun _ => CondResult.ret true) [] 0 10 (by decide) =
      (WaitOutcome.success, 0) ∧
    ∃ m, 0 < m ∧
      (wait_for (fun _ => CondResult.ret false) [] 30 10 (by decide)).2 =
        m * 10 ∧
      30 < m * 10 ∧ m * 10 ≤ 30 + 10 :=
  ⟨wait_for_timeout_checked_after_sleep.1 (fun _ => CondResult.ret true) [] 0
      10 (by decide) rfl,
   wait_for_timeout_checked_after_sleep.2 (fun _ => CondResult.ret false) []
      30 10 (by decide)
      (wait_for_go_all_unready (fun _ => CondResult.ret false) [] 30 10
        (by decide) (fun _ => Or.inl rfl) 40 0 (by omega))⟩

/-- C1: on any inventory whose nodes all carry a row attribute and any
cutoff, `_to_rows` classifies every node as done exactly when its process
start time is strictly after the cutoff (`RowsOk` soundness plus
completeness); `next_nodes` returns `none` exactly when every node is done
(every domain has zero not-done nodes); and a returned batch is the first
`n` not-done nodes of one single domain whose done-count is minimal among
the domains that still have a not-done node. -/
theorem next_nodes_selection_correct (inv : List NodeInfo) (t n : Nat)
    (sfx : String) (hattr : ∀ nd ∈ inv, nd.row ≠ none) :
    ∃ rows, _to_rows inv t = Except.ok rows ∧
      RowsOk t inv rows ∧
      (∀ x ∈ inv, ∀ r, x.row = some r →
        ∃ w, (r, w) ∈ rows ∧
          x ∈ (if _has_been_restarted_after x t then w.done
               else w.not_done)) ∧
      (next_nodes inv t n sfx = Except.ok none ↔
        ∀ x ∈ inv, _has_been_restarted_after x t = true) ∧
      (∀ batch, next_nodes inv t n sfx = Except.ok (some batch) →
        ∃ rname w, (rname, w) ∈ rows ∧ w.not_done ≠ [] ∧
          batch = (w.not_done.take n).map (fqdn sfx) ∧
          batch.length ≤ n ∧
          (∀ x ∈ w.not_done, x ∈ inv ∧ x.row = some rname ∧
            _has_been_restarted_after x t = false) ∧
          (∀ rname' w', (rname', w') ∈ rows → w'.not_done ≠ [] →
            w.done.length ≤ w'.done.length)) := by
  obtain ⟨rows, hre⟩ := toRowsAux_ok t inv [] hattr
  have hsound : RowsOk t inv rows :=
    toRowsAux_sound t inv inv [] rows (fun _ h => h)
      (fun p hp => absurd hp (List.not_mem_nil p)) hre
  obtain ⟨-, hcomp⟩ := toRowsAux_complete t inv [] rows hre
  have hnn : next_nodes inv t n sfx =
      Except.ok (firstBatch n sfx (sortRows rows)) := by
    simp [next_nodes, _to_rows, hre]
  refine ⟨rows, hre, hsound, hcomp, ?_, ?_⟩
  · constructor
    · intro hnone x hx
      rw [hnn] at hnone
      injection hnone with h0
      have hall := (firstBatch_none_iff n sfx (sortRows rows)).mp h0
      by_contra hfalse
      have hxf : _has_been_restarted_after x t = false := by
        cases hb : _has_been_restarted_after x t
        · rfl
        · exact absurd hb hfalse
      cases hr : x.row with
      | none => exact absurd hr (hattr x hx)
      | some r =>
        obtain ⟨w, hw, hxin⟩ := hcomp x hx r hr
        rw [hxf] at hxin
        simp only [Bool.false_eq_true, if_neg] at hxin
        have hemp := hall (r, w) ((mem_sortRows _ _).mpr hw)
        simp only at hemp
        rw [hemp] at hxin
        exact absurd hxin (List.not_mem_nil x)
    · intro hall
      rw [hnn]
      have hfb : firstBatch n sfx (sortRows rows) = none := by
        rw [firstBatch_none_iff]
        intro p hp
        rw [List.eq_nil_iff_forall_not_mem]
        intro y hy
        have hmem := (mem_sortRows p _).mp hp
        have hy' := (hsound p hmem y).2 hy
        have := hall y hy'.1
        rw [hy'.2.2] at this
        exact Bool.noConfusion this
      rw [hfb]
  · intro batch hbatch
    rw [hnn] at hbatch
    injection hbatch with h0
    obtain ⟨p, hpmem, hpne, hpb, hpmin⟩ :=
      firstBatch_some_spec n sfx (sortRows rows) (sortRows_pairwise rows)
        batch h0
    obtain ⟨rname, w⟩ := p
    refine ⟨rname, w, (mem_sortRows _ _).mp hpmem, hpne, hpb, ?_, ?_, ?_⟩
    · rw [hpb]
      simp only [List.length_map, List.length_take]
      exact Nat.min_le_left _ _
    · intro x hxin
      exact (hsound (rname, w) ((mem_sortRows _ _).mp hpmem) x).2 hxin
    · intro rname' w' hw' hne'
      exact hpmin (rname', w') ((mem_sortRows _ _).mpr hw') hne'

/-- Witness for C1 at the spec's end-to-end example: domain A fully done,
domain B with two not-done nodes, batch size 1. -/
theorem next_nodes_selection_correct_witness :
    ∃ rows,
      _to_rows
          [(⟨"a1", some ("A"), 2000000⟩ : NodeInfo),
           (⟨"a2", some ("A"), 2000000⟩ : NodeInfo),
           (⟨"b1", some ("B"), 500000⟩ : NodeInfo),
           (⟨"b2", some ("B"), 500000⟩ : NodeInfo)] 1000 =
        Except.ok rows ∧
      RowsOk 1000
        [(⟨"a1", some ("A"), 2000000⟩ : NodeInfo),
         (⟨"a2", some ("A"), 2000000⟩ : NodeInfo),
         (⟨"b1", some ("B"), 500000⟩ : NodeInfo),
         (⟨"b2", some ("B"), 500000⟩ : NodeInfo)] rows ∧
      (∀ x ∈ [(⟨"a1", some ("A"), 2000000⟩ : NodeInfo),
              (⟨"a2", some ("A"), 2000000⟩ : NodeInfo),
              (⟨"b1", some ("B"), 500000⟩ : NodeInfo),
              (⟨"b2", some ("B"), 500000⟩ : NodeInfo)],
        ∀ r, x.row = some r →
        ∃ w, (r, w) ∈ rows ∧
          x ∈ (if _has_been_restarted_after x 1000 then w.done
               else w.not_done)) ∧
      (next_nodes
          [(⟨"a1", some ("A"), 2000000⟩ : NodeInfo),
           (⟨"a2", some ("A"), 2000000⟩ : NodeInfo),
           (⟨"b1", some ("B"), 500000⟩ : NodeInfo),
           (⟨"b2", some ("B"), 500000⟩ : NodeInfo)] 1000 1 ("x.net") =
          Except.ok none ↔
        ∀ x ∈ [(⟨"a1", some ("A"), 2000000⟩ : NodeInfo),
               (⟨"a2", some ("A"), 2000000⟩ : NodeInfo),
               (⟨"b1", some ("B"), 500000⟩ : NodeInfo),
               (⟨"b2", some ("B"), 500000⟩ : NodeInfo)],
          _has_been_restarted_after x 1000 = true) ∧
      (∀ batch,
        next_nodes
            [(⟨"a1", some ("A"), 2000000⟩ : NodeInfo),
             (⟨"a2", some ("A"), 2000000⟩ : NodeInfo),
             (⟨"b1", some ("B"), 500000⟩ : NodeInfo),
             (⟨"b2", some ("B"), 500000⟩ : NodeInfo)] 1000 1 ("x.net") =
          Except.ok (some batch) →
        ∃ rname w, (rname, w) ∈ rows ∧ w.not_done ≠ [] ∧
          batch = (w.not_done.take 1).map (fqdn ("x.net")) ∧
          batch.length ≤ 1 ∧
          (∀ x ∈ w.not_done,
            x ∈ [(⟨"a1", some ("A"), 2000000⟩ : NodeInfo),
                 (⟨"a2", some ("A"), 2000000⟩ : NodeInfo),
                 (⟨"b1", some ("B"), 500000⟩ : NodeInfo),
                 (⟨"b2", some ("B"), 500000⟩ : NodeInfo)] ∧
            x.row = some rname ∧
            _has_been_restarted_after x 1000 = false) ∧
          (∀ rname' w', (rname', w') ∈ rows → w'.not_done ≠ [] →
            w.done.length ≤ w'.done.length)) :=
  next_nodes_selection_correct
    [(⟨"a1", some ("A"), 2000000⟩ : NodeInfo),
     (⟨"a2", some ("A"), 2000000⟩ : NodeInfo),
     (⟨"b1", some ("B"), 500000⟩ : NodeInfo),
     (⟨"b2", some ("B"), 500000⟩ : NodeInfo)] 1000 1 ("x.net") (by decide)

/-- C4: whatever responses the environment gives,
`force_allocation_of_all_replicas` runs at most U₀ outer iterations, where
U₀ is the unassigned count observed at entry; it stops before the cap only
because a fresh fetch returned no unassigned shards (success), in which case
the fetch after its last iteration is empty; and in every iteration the
processed shard is the head of that iteration's fresh fetch, with no
allocation command issued when the re-check reports the shard as already
assigned. -/
theorem force_allocation_bounded_and_raceguarded (env : RepairEnv) :
    (force_allocation_of_all_replicas env).iters.length ≤
      (env.unassigned 0).length ∧
    ((force_allocation_of_all_replicas env).iters.length <
        (env.unassigned 0).length →
      (force_allocation_of_all_replicas env).stop =
        RepairStop.emptyFetch) ∧
    ((force_allocation_of_all_replicas env).stop = RepairStop.emptyFetch →
      env.unassigned
        ((force_allocation_of_all_replicas env).iters.length + 1) = []) ∧
    (∀ j rec,
      (force_allocation_of_all_replicas env).iters.get? j = some rec →
      rec.fetched = env.unassigned (j + 1) ∧
      env.unassigned (j + 1) ≠ [] ∧
      rec.fetched.head? = some rec.target ∧
      (env.assignedCheck j rec.target = true →
        rec.action.allocCommands = [])) := by
  obtain ⟨hlen, hstop, hempty, hiter⟩ :=
    repairGo_spec env (env.unassigned 0).length 0
  refine ⟨hlen, hstop, ?_, ?_⟩
  · intro h
    have := hempty h
    rwa [Nat.zero_add] at this
  · intro j rec h
    obtain ⟨hf, hne, hhd, hact⟩ := hiter j rec h
    rw [Nat.zero_add] at hf hne hact
    refine ⟨hf, hne, hhd, ?_⟩
    intro hchk
    rw [hact, force_allocation_of_shard, if_pos hchk]
    rfl

/-- Witness for C4: a single permanently-unassigned shard whose re-check
reports it assigned — the pass records the fetch but issues no allocation
command. -/
theorem force_allocation_bounded_and_raceguarded_witness :
    (IterRecord.mk [(⟨"enwiki", 0⟩ : Shard)] (⟨"enwiki", 0⟩ : Shard)
        ShardAction.skippedAssigned).fetched =
      RepairEnv.unassigned
        (⟨fun _ => [(⟨"enwiki", 0⟩ : Shard)], fun _ _ => true,
          fun _ => ["elastic1001"], fun _ _ => true⟩ : RepairEnv) (0 + 1) ∧
    RepairEnv.unassigned
        (⟨fun _ => [(⟨"enwiki", 0⟩ : Shard)], fun _ _ => true,
          fun _ => ["elastic1001"], fun _ _ => true⟩ : RepairEnv) (0 + 1) ≠
      [] ∧
    (IterRecord.mk [(⟨"enwiki", 0⟩ : Shard)] (⟨"enwiki", 0⟩ : Shard)
        ShardAction.skippedAssigned).fetched.head? =
      some (IterRecord.mk [(⟨"enwiki", 0⟩ : Shard)] (⟨"enwiki", 0⟩ : Shard)
        ShardAction.skippedAssigned).target ∧
    (RepairEnv.assignedCheck
        (⟨fun _ => [(⟨"enwiki", 0⟩ : Shard)], fun _ _ => true,
          fun _ => ["elastic1001"], fun _ _ => true⟩ : RepairEnv) 0
        (IterRecord.mk [(⟨"enwiki", 0⟩ : Shard)] (⟨"enwiki", 0⟩ : Shard)
          ShardAction.skippedAssigned).target = true →
      (IterRecord.mk [(⟨"enwiki", 0⟩ : Shard)] (⟨"enwiki", 0⟩ : Shard)
        ShardAction.skippedAssigned).action.allocCommands = []) :=
  (force_allocation_bounded_and_raceguarded
      (⟨fun _ => [(⟨"enwiki", 0⟩ : Shard)], fun _ _ => true,
        fun _ => ["elastic1001"], fun _ _ => true⟩ : RepairEnv)).2.2.2 0
    (IterRecord.mk [(⟨"enwiki", 0⟩ : Shard)] (⟨"enwiki", 0⟩ : Shard)
      ShardAction.skippedAssigned) rfl

end ESTools
